import Mathlib

/-!
Verification of the shift-automation reporting engine (`src/Code.gs`).

The engine is a Google Apps Script pipeline: per-city raw shift rows and an
employee roster ("All" sheet) are turned into per-day assigned/unassigned
classifications and a contract x city master report over a date range.

Shallow-embedding conventions used throughout:

* Spreadsheet cell values are modelled as `String` (JS truthiness of a string
  cell is emptiness).  Only the columns the code reads are modelled.
* Calendar dates are modelled as `Nat` epoch-day numbers.  The script always
  normalizes dates with `Utilities.formatDate(d, "GMT+2", "yyyy-MM-dd")`
  before comparing; in a fixed timezone that format is injective on days, so
  date-string equality is modelled as equality of day numbers.
* Time-of-day cells are `Option Nat`: `some t` is a cell that
  `new Date(time)` parses, carried as minutes (`formatTime` renders
  `t % 1440`); `none` is a falsy or unparsable cell (both paths of
  `formatTime` in Code.gs:296-303 yield the sentinel).
* JS `String.prototype.trim` is modelled on ASCII whitespace
  (`trimChars`), and the case-insensitive regex test of `isValidShift`
  is modelled through ASCII upper-casing (`jsUpperChar`), which is the JS
  behaviour on the ASCII strings the statuses range over.
* JS `Map` (insertion ordered) is modelled as an ordered association list;
  `forEach` over a `Map` is a left fold / map over that list.
* Spreadsheet reads/writes, dialogs and alerts are I/O glue outside the
  verified core; functions below model exactly the data transformation the
  script performs between those I/O calls.
-/

namespace ShiftAutomation

/-! ## Fixed configuration (Code.gs:2-10) -/

/-- The fixed contract enumeration (Code.gs:2-6). -/
def CONTRACTS : List String :=
  ["Al Abtal", "Al Alamia", "bad El rahman", "El Tohami",
   "MTA", "Stop Car", "Tanta Car", "Tantawy",
   "Team mh for Delivery", "Wasaly", "Zero Zero Seven"]

/-- The fixed city enumeration (Code.gs:8). -/
def CITIES : List String :=
  ["Assiut", "Hurghada", "Ismalia", "Minya", "Port said", "Suez"]

/-! ## JS string primitives -/

/-- ASCII whitespace recognised by the model of `String.prototype.trim`. -/
def isWS (c : Char) : Bool :=
  c == ' ' || c == '\t' || c == '\n' || c == '\r'

/-- Strip leading and trailing whitespace from a character list
(model of JS `trim` at the character-list level). -/
def trimChars (l : List Char) : List Char :=
  ((l.dropWhile isWS).reverse.dropWhile isWS).reverse

/-- Model of JS `String.prototype.trim` (ASCII whitespace). -/
def jsTrim (s : String) : String :=
  ⟨trimChars s.data⟩

/-- ASCII upper-casing of one character, the behaviour of JS
case-insensitive matching on ASCII letters. -/
def jsUpperChar : Char → Char
  | 'a' => 'A' | 'b' => 'B' | 'c' => 'C' | 'd' => 'D' | 'e' => 'E'
  | 'f' => 'F' | 'g' => 'G' | 'h' => 'H' | 'i' => 'I' | 'j' => 'J'
  | 'k' => 'K' | 'l' => 'L' | 'm' => 'M' | 'n' => 'N' | 'o' => 'O'
  | 'p' => 'P' | 'q' => 'Q' | 'r' => 'R' | 's' => 'S' | 't' => 'T'
  | 'u' => 'U' | 'v' => 'V' | 'w' => 'W' | 'x' => 'X' | 'y' => 'Y'
  | 'z' => 'Z' | c => c

/-- Upper-case a character list. -/
def upperChars (l : List Char) : List Char :=
  l.map jsUpperChar

/-- `isPfx n l`: `n` is a leading block of `l`. -/
def isPfx : List Char → List Char → Bool
  | [], _ => true
  | _ :: _, [] => false
  | a :: as, b :: bs => a == b && isPfx as bs

/-- `hasSub n l`: `n` occurs contiguously inside `l` (model of a regex
literal-substring test). -/
def hasSub (n : List Char) : List Char → Bool
  | [] => isPfx n []
  | a :: t => isPfx n (a :: t) || hasSub n t

/-- Character list of the regex alternative `NO_SHOW` (Code.gs:154). -/
def NOSHOW : List Char := ['N', 'O', '_', 'S', 'H', 'O', 'W']

/-- Character list of the regex alternative `EXCUSED` (Code.gs:154). -/
def EXCUSED : List Char := ['E', 'X', 'C', 'U', 'S', 'E', 'D']

/-! ## Data model -/

/-- One ingested shift record (the object literal built at Code.gs:136-143).
Note that it has no contract field: only these six properties are set. -/
structure ShiftRecord where
  employeeId : String
  shiftStatus : String
  plannedStartDate : Nat
  plannedStartTime : String
  plannedEndTime : String
  city : String
deriving DecidableEq, Repr

/-- One roster entry from the `All` sheet (Code.gs:310-315). -/
structure RosterEntry where
  id : String
  name : String
  contract : String
  city : String
deriving DecidableEq, Repr

/-- The cells of one raw city-sheet row that the script reads
(Code.gs:132-141): `row[1]` employee id, `row[5]` shift status,
`row[7]` planned start date, `row[9]`/`row[10]` planned times. -/
structure RawRow where
  employeeIdCell : String
  statusCell : String
  plannedStartDateCell : Nat
  startTimeCell : Option Nat
  endTimeCell : Option Nat
deriving DecidableEq, Repr

/-- The four cells of one `All`-sheet row (Code.gs:309). -/
structure AllRow where
  c0 : String
  c1 : String
  c2 : String
  c3 : String
deriving DecidableEq, Repr

/-- Result of one day's classification (Code.gs:172). -/
structure DailyData where
  assigned : List ShiftRecord
  unassigned : List RosterEntry
deriving DecidableEq, Repr

/-- One value of the aggregation map `contractMap` (Code.gs:224-229):
`dates` is the insertion-ordered per-date map of assigned counts. -/
structure Entry where
  contract : String
  city : String
  total : Nat
  dates : List (Nat × Nat)
deriving DecidableEq, Repr

/-- One date cell of a master-report row (Code.gs:270-274).  `unassigned`
is the JS subtraction `value.total - assigned` (which can in principle go
negative, hence `Int`).  The percentage string of Code.gs:272 is a pure
rendering of these two numbers (see `percentageOf`) and is not stored. -/
structure SummaryCell where
  assigned : Nat
  unassigned : Int
deriving DecidableEq, Repr

/-- One emitted master-report row (Code.gs:266-277). -/
structure ReportRow where
  contract : String
  city : String
  total : Nat
  cells : List SummaryCell
deriving DecidableEq, Repr

/-- Everything one pipeline run produces (daily sheets' data plus the
master-report rows); the spreadsheet rendering itself is I/O glue. -/
structure PipelineReport where
  dailies : List (Nat × DailyData)
  masterRows : List ReportRow
deriving DecidableEq, Repr

/-! ## Ingestion (Code.gs:124-155, 296-303) -/

/-- `isValidShift` (Code.gs:152-155): falsy status is invalid, otherwise
the trimmed status must not match `/(NO_SHOW|EXCUSED)/i`. -/
def isValidShift (status : String) : Bool :=
  if status = "" then false
  else !(hasSub NOSHOW (upperChars (trimChars status.data)) ||
         hasSub EXCUSED (upperChars (trimChars status.data)))

/-- The decimal digit characters used by the `HH:mm` formatter. -/
def digitChar : Nat → Char
  | 0 => '0' | 1 => '1' | 2 => '2' | 3 => '3' | 4 => '4'
  | 5 => '5' | 6 => '6' | 7 => '7' | 8 => '8' | _ => '9'

/-- Zero-padded two-digit rendering of `n < 100`. -/
def twoDigit (n : Nat) : String :=
  ⟨[digitChar (n / 10), digitChar (n % 10)]⟩

/-- `formatTime` (Code.gs:296-303): a falsy or unparsable time cell
(`none`) yields the sentinel, a parsed time is rendered `"HH:mm"`.
The parsed value is carried in minutes; `% 1440` is the reduction of the
timestamp to a time of day that `formatDate` performs. -/
def formatTime : Option Nat → String
  | none => "Invalid Time"
  | some t => twoDigit (t % 1440 / 60) ++ ":" ++ twoDigit (t % 1440 % 60)

/-- Ingestion of one city sheet's data rows (body of the `CITIES.forEach`
in `prepareRawData`, Code.gs:134-145): keep rows with a truthy employee-id
cell and valid status, trim id and status, format the two times. -/
def prepareCityData (city : String) (rows : List RawRow) : List ShiftRecord :=
  rows.filterMap fun row =>
    if (row.employeeIdCell != "") && isValidShift row.statusCell then
      some { employeeId := jsTrim row.employeeIdCell,
             shiftStatus := jsTrim row.statusCell,
             plannedStartDate := row.plannedStartDateCell,
             plannedStartTime := formatTime row.startTimeCell,
             plannedEndTime := formatTime row.endTimeCell,
             city := city }
    else none

/-- `prepareRawData` (Code.gs:124-150): concatenate the ingested records of
every city sheet in `CITIES` order.  `sheets` maps a city name to the data
rows of its sheet (a missing or empty sheet is the empty list). -/
def prepareRawData (sheets : String → List RawRow) : List ShiftRecord :=
  CITIES.flatMap fun city => prepareCityData city (sheets city)

/-- `getMasterData` (Code.gs:305-316): one roster entry per `All`-sheet
row, id trimmed. -/
def getMasterData (rows : List AllRow) : List RosterEntry :=
  rows.map fun row =>
    { id := jsTrim row.c0, name := row.c1, contract := row.c2, city := row.c3 }

/-! ## Daily classification (Code.gs:158-173) -/

/-- `processDailyData` (Code.gs:158-173): `assigned` is the raw records
whose planned start date normalizes to the target date's key; `unassigned`
is the roster entries whose id is not among the assigned ids. -/
def processDailyData (rawData : List ShiftRecord) (targetDate : Nat)
    (masterData : List RosterEntry) : DailyData :=
  let assigned := rawData.filter fun row => row.plannedStartDate == targetDate
  let assignedIds := assigned.map (·.employeeId)
  let unassigned := masterData.filter fun emp => !(assignedIds.contains emp.id)
  { assigned := assigned, unassigned := unassigned }

/-! ## Date range (Code.gs:60-67, 286-294) -/

/-- `getDateRange` (Code.gs:286-294): push each day from `start` while
`current <= end`, stepping one day at a time. -/
def getDateRange (startDate endDate : Nat) : List Nat :=
  if h : startDate ≤ endDate then startDate :: getDateRange (startDate + 1) endDate
  else []
termination_by endDate + 1 - startDate
decreasing_by omega

/-- The spec's `generateDateRange` interface: the `start > end` validation
performed by `processSelectedDates` (Code.gs:67) composed with the range
loop (Code.gs:286-294); a thrown `Error` is an `Except.error` carrying the
script's message. -/
def generateDateRange (startDate endDate : Nat) : Except String (List Nat) :=
  if startDate > endDate then Except.error "Start date must be before end date"
  else Except.ok (getDateRange startDate endDate)

/-! ## Master report (Code.gs:204-283) -/

/-- The composite map key `` `${contract}_${city}` `` (Code.gs:223, 235). -/
def empKey (contract city : String) : String :=
  contract ++ "_" ++ city

/-- The fixed Contract x City enumeration in the nested `forEach` order of
Code.gs:221-231. -/
def contractCityPairs : List (String × String) :=
  CONTRACTS.flatMap fun contract => CITIES.map fun city => (contract, city)

/-- The initialized `contractMap` (Code.gs:218-231): one entry per
enumerated pair, in insertion order, `total = 0`, empty per-date map. -/
def initContractMap : List (String × Entry) :=
  contractCityPairs.map fun pr =>
    (empKey pr.1 pr.2, { contract := pr.1, city := pr.2, total := 0, dates := [] })

/-- `contractMap.get(key).total++` guarded by `contractMap.has(key)`
(Code.gs:234-239): increment the totals of the entries at `key` (at most
one, keys being distinct), no-op when the key is absent. -/
def bumpTotal (m : List (String × Entry)) (key : String) : List (String × Entry) :=
  m.map fun p => if p.1 = key then (p.1, { p.2 with total := p.2.total + 1 }) else p

/-- The per-date counter update of Code.gs:254-257: create the date slot
with `assigned = 0` when missing, then increment it. -/
def bumpDates (ds : List (Nat × Nat)) (d : Nat) : List (Nat × Nat) :=
  if ds.any fun q => q.1 == d then
    ds.map fun q => if q.1 = d then (q.1, q.2 + 1) else q
  else ds ++ [(d, 1)]

/-- The guarded per-record update of Code.gs:252-258 at map key `key`. -/
def bumpAssigned (m : List (String × Entry)) (key : String) (d : Nat) :
    List (String × Entry) :=
  m.map fun p => if p.1 = key then (p.1, { p.2 with dates := bumpDates p.2.dates d }) else p

/-- The key `` `${row.contract}_${row.city}` `` computed at Code.gs:251.
A `ShiftRecord` has no contract property (Code.gs:136-143), so the JS
template literal stringifies the `undefined` field access as
`"undefined"`. -/
def undefinedKey (city : String) : String :=
  "undefined" ++ "_" ++ city

/-- The roster-totals pass of Code.gs:234-239 as a fold over the roster. -/
def countTotals (m : List (String × Entry)) (masterData : List RosterEntry) :
    List (String × Entry) :=
  masterData.foldl (fun m emp => bumpTotal m (empKey emp.contract emp.city)) m

/-- The per-date assigned-counting pass of Code.gs:242-260: for each date,
filter the raw records to that date, then bump each record's key. -/
def countAssigned (m : List (String × Entry)) (dates : List Nat)
    (rawData : List ShiftRecord) : List (String × Entry) :=
  dates.foldl
    (fun m date =>
      (rawData.filter fun row => row.plannedStartDate == date).foldl
        (fun m row => bumpAssigned m (undefinedKey row.city) date) m)
    m

/-- `value.dates.get(dateStr)?.assigned || 0` (Code.gs:270). -/
def lookupAssigned (ds : List (Nat × Nat)) (d : Nat) : Nat :=
  match ds.find? fun q => q.1 == d with
  | some q => q.2
  | none => 0

/-- The exact value of the percentage rendered at Code.gs:272
(`value.total > 0 ? (assigned / value.total * 100).toFixed(2) + '%' : '0%'`);
its `toFixed(2)` string rendering is display glue. -/
def percentageOf (assigned total : Nat) : Rat :=
  if 0 < total then (assigned : Rat) / (total : Rat) * 100 else 0

/-- The date cells of one report row (Code.gs:268-275). -/
def mkCells (total : Nat) (ds : List (Nat × Nat)) (dates : List Nat) :
    List SummaryCell :=
  dates.map fun date =>
    let assigned := lookupAssigned ds date
    { assigned := assigned,
      unassigned := (total : Int) - (assigned : Int) }

/-- `generateMasterReport` (Code.gs:204-283) as a data transformation:
initialize the cross-tab, count roster totals, count per-date assignments,
then emit one row per entry with positive total, in map iteration order. -/
def generateMasterReport (dates : List Nat) (masterData : List RosterEntry)
    (rawData : List ShiftRecord) : List ReportRow :=
  let m := countAssigned (countTotals initContractMap masterData) dates rawData
  m.filterMap fun p =>
    if 0 < p.2.total then
      some { contract := p.2.contract, city := p.2.city, total := p.2.total,
             cells := mkCells p.2.total p.2.dates dates }
    else none

/-! ## Pipeline (Code.gs:60-98) -/

/-- The core of `processSelectedDates` (Code.gs:60-98) without its I/O
(sheet clearing, sheet writes, dialogs): validate the date order, ingest,
check for data, load the roster, check it, then produce the daily
classifications and the master report.  A thrown `Error` is an
`Except.error` carrying the script's message; an error aborts the run, so
no report data accompanies it. -/
def processSelectedDatesCore (startDate endDate : Nat)
    (sheets : String → List RawRow) (allRows : List AllRow) :
    Except String PipelineReport :=
  if startDate > endDate then Except.error "Start date must be before end date"
  else
    let rawData := prepareRawData sheets
    if rawData.length = 0 then Except.error "No valid shift data found in city sheets"
    else
      let dates := getDateRange startDate endDate
      let masterData := getMasterData allRows
      if masterData.length = 0 then Except.error "No employee data found in 'All' sheet"
      else Except.ok
        { dailies := dates.map fun d => (d, processDailyData rawData d masterData),
          masterRows := generateMasterReport dates masterData rawData }

/-! ## Spec-side predicates (for the refinement claims about ingestion) -/

/-- Spec wording of C7's exclusion test: the status cell case-insensitively
contains `NO_SHOW` or `EXCUSED` (no trimming, as the spec states it). -/
def excludedStatusSpec (s : String) : Bool :=
  hasSub NOSHOW (upperChars s.data) || hasSub EXCUSED (upperChars s.data)

/-- C7's retention condition exactly as the claim states it: non-empty
employee-id cell and status not case-insensitively containing
`NO_SHOW`/`EXCUSED`. -/
def keptClaim (row : RawRow) : Bool :=
  (row.employeeIdCell != "") && !(excludedStatusSpec row.statusCell)

/-- The amended retention condition: additionally the status cell must be
non-empty (the code's `isValidShift` rejects a falsy status). -/
def keptAmended (row : RawRow) : Bool :=
  (row.employeeIdCell != "") && (row.statusCell != "") &&
    !(excludedStatusSpec row.statusCell)

/-- The record a retained row is mapped to (Code.gs:136-143). -/
def mkShiftRecord (city : String) (row : RawRow) : ShiftRecord :=
  { employeeId := jsTrim row.employeeIdCell,
    shiftStatus := jsTrim row.statusCell,
    plannedStartDate := row.plannedStartDateCell,
    plannedStartTime := formatTime row.startTimeCell,
    plannedEndTime := formatTime row.endTimeCell,
    city := city }

/-! ## Derived views of a daily classification -/

/-- The day's assigned-id multiset, as the ids of the assigned records
(the basis of the `assignedIds` set at Code.gs:169). -/
def assignedIdsOf (dd : DailyData) : List String :=
  dd.assigned.map (·.employeeId)

/-- The ids of the day's unassigned roster entries. -/
def unassignedIdsOf (dd : DailyData) : List String :=
  dd.unassigned.map (·.id)

/-! ## Derived views of the cross-tab -/

/-- The composite key a roster entry is counted under (Code.gs:235). -/
def empKeyOf (emp : RosterEntry) : String :=
  empKey emp.contract emp.city

/-- How many roster entries are counted under composite key `k`. -/
def countKey (masterData : List RosterEntry) (k : String) : Nat :=
  (masterData.filter fun emp => empKeyOf emp == k).length

/-- How many roster entries have exactly this contract and city (the
spec-side reading of a cross-tab total). -/
def matchCount (masterData : List RosterEntry) (contract city : String) : Nat :=
  (masterData.filter fun emp => emp.contract == contract && emp.city == city).length

/-- The key/contract/city/total projection of the cross-tab, which the
per-date assigned-counting pass never changes. -/
def totalsView (m : List (String × Entry)) : List (String × String × String × Nat) :=
  m.map fun p => (p.1, p.2.contract, p.2.city, p.2.total)

/-- A default report row (used only to select rows in witnesses). -/
def emptyRow : ReportRow :=
  { contract := "", city := "", total := 0, cells := [] }

/-! ## Concrete fixtures used by evaluation theorems and witnesses -/

/-- A one-employee roster: id `E1`, contract `MTA`, city `Suez`. -/
def rosterA : List RosterEntry :=
  [{ id := "E1", name := "Emp One", contract := "MTA", city := "Suez" }]

/-- A shift record of employee `E1` on day 10 in `Suez`. -/
def shiftA : ShiftRecord :=
  { employeeId := "E1", shiftStatus := "Completed", plannedStartDate := 10,
    plannedStartTime := "09:00", plannedEndTime := "17:00", city := "Suez" }

/-- A one-employee roster: id `E9`, contract `Wasaly`, city `Minya`. -/
def rosterB : List RosterEntry :=
  [{ id := "E9", name := "Emp Nine", contract := "Wasaly", city := "Minya" }]

/-- First of two same-day shift records of employee `E9` in `Minya`. -/
def shiftB1 : ShiftRecord :=
  { employeeId := "E9", shiftStatus := "Completed", plannedStartDate := 20,
    plannedStartTime := "08:00", plannedEndTime := "12:00", city := "Minya" }

/-- Second of two same-day shift records of employee `E9` in `Minya`. -/
def shiftB2 : ShiftRecord :=
  { employeeId := "E9", shiftStatus := "Assigned", plannedStartDate := 20,
    plannedStartTime := "13:00", plannedEndTime := "18:00", city := "Minya" }

/-- A raw row whose employee-id cell is whitespace-only (truthy in JS,
but trimming to the empty id). -/
def rawRowWS : RawRow :=
  { employeeIdCell := " ", statusCell := "Completed",
    plannedStartDateCell := 0, startTimeCell := none, endTimeCell := none }

/-- A raw row with a real employee id but an empty status cell. -/
def rawRowEmptyStatus : RawRow :=
  { employeeIdCell := "E1", statusCell := "",
    plannedStartDateCell := 0, startTimeCell := none, endTimeCell := none }

/-- A raw row that every reading of the retention condition keeps. -/
def rawRowGood : RawRow :=
  { employeeIdCell := "E5", statusCell := "Completed",
    plannedStartDateCell := 3, startTimeCell := some 125, endTimeCell := none }

/-- A two-employee roster on the same (contract, city) pair, for the
partition and cross-tab witnesses. -/
def rosterC : List RosterEntry :=
  [{ id := "E1", name := "Emp One", contract := "MTA", city := "Suez" },
   { id := "E2", name := "Emp Two", contract := "MTA", city := "Suez" }]

/-! # Theorems -/

/-- C10: `classifyDay`'s assigned list is exactly the input shift records
whose planned start date normalizes to the target date's key, in input
order; it is not restricted to roster members (any matching record is in
`assigned`, whether or not its employeeId appears in the roster), while
the unassigned list only ever contains roster entries. -/
theorem classifyDay_assigned_is_date_filter (rawData : List ShiftRecord)
    (d : Nat) (masterData : List RosterEntry) :
    (processDailyData rawData d masterData).assigned
        = rawData.filter (fun r => r.plannedStartDate == d)
      ∧ (∀ r ∈ rawData, r.plannedStartDate = d →
          r ∈ (processDailyData rawData d masterData).assigned)
      ∧ (∀ emp ∈ (processDailyData rawData d masterData).unassigned,
          emp ∈ masterData) := by
  refine ⟨rfl, ?_, ?_⟩
  · intro r hr hd
    simp only [processDailyData, List.mem_filter]
    exact ⟨hr, by simp [hd]⟩
  · intro emp hemp
    simp only [processDailyData, List.mem_filter] at hemp
    exact hemp.1

/-- C2: after `classifyDay`, every roster entry's id lies in the day's
assigned-id set or among the unassigned ids, and never in both — the
roster is exactly partitioned. -/
theorem classifyDay_partitions_roster (rawData : List ShiftRecord) (d : Nat)
    (masterData : List RosterEntry) (r : RosterEntry) (hr : r ∈ masterData) :
    (r.id ∈ assignedIdsOf (processDailyData rawData d masterData)
        ∨ r.id ∈ unassignedIdsOf (processDailyData rawData d masterData))
      ∧ ¬(r.id ∈ assignedIdsOf (processDailyData rawData d masterData)
        ∧ r.id ∈ unassignedIdsOf (processDailyData rawData d masterData)) := by
  simp only [processDailyData, assignedIdsOf, unassignedIdsOf]
  by_cases h :
      r.id ∈ (rawData.filter (fun row => row.plannedStartDate == d)).map (·.employeeId)
  · refine ⟨Or.inl h, ?_⟩
    rintro ⟨-, hmem⟩
    obtain ⟨e, he, hid⟩ := List.mem_map.mp hmem
    have : ¬((rawData.filter (fun row => row.plannedStartDate == d)).map
        (·.employeeId)).contains e.id := by
      have := (List.mem_filter.mp he).2
      simpa using this
    exact this (by rw [hid]; simpa [List.contains] using h)
  · refine ⟨Or.inr ?_, fun hc => h hc.1⟩
    refine List.mem_map.mpr ⟨r, List.mem_filter.mpr ⟨hr, ?_⟩, rfl⟩
    simpa [List.contains] using h

/-- C8: every row the aggregator emits has a positive total; a
`(contract, city)` key whose total is zero is never emitted, whatever the
shift records attribute to that pair. -/
theorem masterReport_rows_have_positive_total (dates : List Nat)
    (masterData : List RosterEntry) (rawData : List ShiftRecord)
    (row : ReportRow) (hrow : row ∈ generateMasterReport dates masterData rawData) :
    0 < row.total := by
  simp only [generateMasterReport, List.mem_filterMap] at hrow
  obtain ⟨p, -, hf⟩ := hrow
  by_cases h : 0 < p.2.total
  · simp only [h, if_pos] at hf
    cases hf
    exact h
  · simp [h] at hf

/-- C1: the cross-tab key of an assigned shift record is *not* resolved
through the roster: Code.gs:251 keys on `row.contract`, a field shift
records never carry, so the per-date assigned count stays 0 even though
the roster join of `E1` resolves to the row's own `(MTA, Suez)` key.  The
claim (spec §4.5 step 3) expects this cell to read 1. -/
theorem masterReport_ignores_roster_join :
    generateMasterReport [10] rosterA [shiftA]
        = [{ contract := "MTA", city := "Suez", total := 1,
             cells := [{ assigned := 0, unassigned := 1 }] }]
      ∧ (rosterA.filter (fun e => e.id == shiftA.employeeId)).map (·.contract)
        = ["MTA"]
      ∧ shiftA.city = "Suez" := by
  exact ⟨by decide, by decide, rfl⟩

/-- C4: two same-day shift records of one employee both appear in the
day's assigned list and the employee is counted assigned only once by the
classification (the unassigned list is empty, not negative); but in the
master report's `(Wasaly, Minya)` date cell the assigned count is 0, not
1: the per-record counting at Code.gs:250-259 keys on the missing
`row.contract` field, so the employee is counted zero times — not once as
the claim states — for the summary cell and its percentage. -/
theorem duplicate_shifts_counted_zero_in_summary :
    (processDailyData [shiftB1, shiftB2] 20 rosterB).assigned = [shiftB1, shiftB2]
      ∧ (processDailyData [shiftB1, shiftB2] 20 rosterB).unassigned = []
      ∧ generateMasterReport [20] rosterB [shiftB1, shiftB2]
        = [{ contract := "Wasaly", city := "Minya", total := 1,
             cells := [{ assigned := 0, unassigned := 1 }] }] := by
  exact ⟨by decide, by decide, by decide⟩

/-- The date-range loop in closed form: the `n` days starting at `s`,
where `n = e + 1 - s`. -/
theorem getDateRange_closed :
    ∀ (n s e : Nat), e + 1 - s = n →
      getDateRange s e = (List.range n).map (s + ·) := by
  intro n
  induction n with
  | zero =>
    intro s e h
    rw [getDateRange]
    simp [show ¬s ≤ e by omega]
  | succ n ih =>
    intro s e h
    rw [getDateRange]
    simp only [show s ≤ e by omega, dif_pos]
    rw [ih (s + 1) e (by omega), List.range_succ_eq_map, List.map_cons, List.map_map]
    refine congrArg₂ _ (by omega) (List.map_congr_left fun k _ => ?_)
    simp only [Function.comp]
    omega

/-- C5: `generateDateRange` fails with the validation error exactly when
`start > end`; otherwise it returns every day from `start` to `end`
inclusive, in ascending order with consecutive entries one day apart, of
length `end - start + 1`, and a single day when `start = end`. -/
theorem dateRange_spec (s e : Nat) :
    (e < s → generateDateRange s e = Except.error "Start date must be before end date")
      ∧ (s ≤ e → generateDateRange s e = Except.ok (getDateRange s e))
      ∧ (∀ d : Nat, d ∈ getDateRange s e ↔ s ≤ d ∧ d ≤ e)
      ∧ List.Chain' (fun a b => b = a + 1) (getDateRange s e)
      ∧ (getDateRange s e).length = e + 1 - s
      ∧ (s = e → getDateRange s e = [s]) := by
  have hclosed := getDateRange_closed (e + 1 - s) s e rfl
  refine ⟨fun h => ?_, fun h => ?_, fun d => ?_, ?_, ?_, fun h => ?_⟩
  · simp [generateDateRange, show s > e from h]
  · simp [generateDateRange, show ¬s > e by omega]
  · rw [hclosed]
    simp only [List.mem_map, List.mem_range]
    constructor
    · rintro ⟨k, hk, rfl⟩
      omega
    · intro hd
      exact ⟨d - s, by omega, by omega⟩
  · rw [hclosed, List.chain'_map]
    rcases h : e + 1 - s with - | n
    · exact List.chain'_nil
    · exact (List.chain'_range_succ _ _).mpr fun m _ => by omega
  · rw [hclosed]
    simp
  · subst h
    rw [hclosed]
    simp [show s + 1 - s = 1 by omega, List.range_succ]

/-- Witness for C5 at concrete dates: days 7..5 is rejected, day 4..4 is
the one-day range. -/
theorem dateRange_spec_witness :
    generateDateRange 7 5 = Except.error "Start date must be before end date"
      ∧ getDateRange 4 4 = [4] :=
  ⟨(dateRange_spec 7 5).1 (by omega),
   (dateRange_spec 4 4).2.2.2.2.2 rfl⟩

/-- C6: the pipeline core errors exactly in the three validation cases —
start after end, zero ingested shift records, empty roster — and an error
run carries no report data (the `Except.error` result has no
`PipelineReport`); the checks are performed synchronously, in the order
the script performs them, before any report row is computed. -/
theorem pipeline_errors_iff_validation_fails (s e : Nat)
    (sheets : String → List RawRow) (allRows : List AllRow) :
    (∃ msg, processSelectedDatesCore s e sheets allRows = Except.error msg)
      ↔ (e < s ∨ prepareRawData sheets = [] ∨ getMasterData allRows = []) := by
  simp only [processSelectedDatesCore]
  split_ifs with h1 h2 h3
  · simp only [show e < s from h1]
    tauto
  · simp only [List.length_eq_zero] at h2
    simp [h2]
  · simp only [List.length_eq_zero] at h3
    simp [h3]
  · simp only [List.length_eq_zero] at h2 h3
    constructor
    · rintro ⟨msg, hmsg⟩
      cases hmsg
    · intro hor
      rcases hor with h | h | h
      · omega
      · exact absurd h h2
      · exact absurd h h3

/-- Witness for C2 at a concrete day: employee `E1` of the two-employee
roster is assigned on day 10 and lands in exactly one side of the
partition. -/
theorem classifyDay_partitions_roster_witness :
    (("E1" : String) ∈ assignedIdsOf (processDailyData [shiftA] 10 rosterC)
        ∨ ("E1" : String) ∈ unassignedIdsOf (processDailyData [shiftA] 10 rosterC))
      ∧ ¬(("E1" : String) ∈ assignedIdsOf (processDailyData [shiftA] 10 rosterC)
        ∧ ("E1" : String) ∈ unassignedIdsOf (processDailyData [shiftA] 10 rosterC)) :=
  classifyDay_partitions_roster [shiftA] 10 rosterC
    { id := "E1", name := "Emp One", contract := "MTA", city := "Suez" } (by decide)

/-- Witness for C10 at a concrete day: the day-10 record is in the
assigned list. -/
theorem classifyDay_assigned_is_date_filter_witness :
    shiftA ∈ (processDailyData [shiftA] 10 rosterA).assigned :=
  (classifyDay_assigned_is_date_filter [shiftA] 10 rosterA).2.1 shiftA (by decide) rfl

/-- Witness for C8 at a concrete report: the only emitted row has a
positive total. -/
theorem masterReport_rows_have_positive_total_witness :
    0 < ((generateMasterReport [10] rosterA [shiftA]).headD emptyRow).total :=
  masterReport_rows_have_positive_total [10] rosterA [shiftA] _ (by decide)

/-! ## The cross-tab in closed form -/

/-- One roster entry bumps exactly the matching key's total. -/
theorem countKey_cons (emp : RosterEntry) (rest : List RosterEntry) (k : String) :
    countKey (emp :: rest) k
      = (if empKeyOf emp == k then 1 else 0) + countKey rest k := by
  simp only [countKey, List.filter_cons]
  split <;> simp [Nat.add_comm]

/-- The totals pass of Code.gs:234-239 in closed form: each entry's total
grows by the number of roster entries counted under its key. -/
theorem countTotals_closed (masterData : List RosterEntry) :
    ∀ m : List (String × Entry),
      countTotals m masterData
        = m.map fun p => (p.1, { p.2 with total := p.2.total + countKey masterData p.1 }) := by
  induction masterData with
  | nil =>
    intro m
    have : countKey [] = fun _ : String => 0 := rfl
    simp only [countTotals, List.foldl_nil, this, Nat.add_zero]
    exact (List.map_id' m).symm
  | cons emp rest ih =>
    intro m
    have hstep : countTotals m (emp :: rest)
        = countTotals (bumpTotal m (empKeyOf emp)) rest := rfl
    rw [hstep, ih, bumpTotal, List.map_map]
    refine List.map_congr_left fun p _ => ?_
    simp only [Function.comp]
    by_cases h : p.1 = empKeyOf emp
    · simp [h, countKey_cons, Nat.add_assoc, Nat.add_comm]
    · have : (empKeyOf emp == p.1) = false := by
        simpa [beq_iff_eq] using fun he => h he.symm
      simp [h, countKey_cons, this]

/-- Bumping a per-date assigned count never changes keys, contract/city
labels or totals. -/
theorem totalsView_bumpAssigned (m : List (String × Entry)) (k : String) (d : Nat) :
    totalsView (bumpAssigned m k d) = totalsView m := by
  simp only [totalsView, bumpAssigned, List.map_map]
  refine List.map_congr_left fun p _ => ?_
  by_cases h : p.1 = k <;> simp [h]

/-- Folding any sequence of `totalsView`-preserving steps preserves
`totalsView`. -/
theorem totalsView_foldl {α : Type} (F : List (String × Entry) → α → List (String × Entry))
    (hF : ∀ m x, totalsView (F m x) = totalsView m) :
    ∀ (l : List α) (m : List (String × Entry)), totalsView (l.foldl F m) = totalsView m := by
  intro l
  induction l with
  | nil => intro m; rfl
  | cons x t ih => intro m; rw [List.foldl_cons, ih, hF]

/-- The per-date assigned-counting pass (Code.gs:242-260) preserves the
key/contract/city/total projection of the cross-tab. -/
theorem totalsView_countAssigned (m : List (String × Entry)) (dates : List Nat)
    (rawData : List ShiftRecord) :
    totalsView (countAssigned m dates rawData) = totalsView m := by
  refine totalsView_foldl _ (fun m date => ?_) dates m
  exact totalsView_foldl _ (fun m row => totalsView_bumpAssigned ..) _ m

/-- The key/contract/city/total projection of the fully-counted cross-tab,
indexed by the fixed enumeration. -/
theorem totalsView_final (dates : List Nat) (masterData : List RosterEntry)
    (rawData : List ShiftRecord) :
    totalsView (countAssigned (countTotals initContractMap masterData) dates rawData)
      = contractCityPairs.map fun pr =>
          (empKey pr.1 pr.2, pr.1, pr.2, countKey masterData (empKey pr.1 pr.2)) := by
  rw [totalsView_countAssigned, countTotals_closed]
  simp [totalsView, initContractMap, List.map_map, Function.comp]

/-- Splitting at an underscore separator is unambiguous when neither
right-hand component piece contains an underscore. -/
theorem underscore_split {as bs cs ys : List Char}
    (hc : '_' ∉ cs) (hy : '_' ∉ ys) :
    as ++ '_' :: bs = cs ++ '_' :: ys ↔ as = cs ∧ bs = ys := by
  constructor
  · intro h
    induction as generalizing cs with
    | nil =>
      cases cs with
      | nil => simpa using h
      | cons c cs' =>
        simp only [List.nil_append, List.cons_append, List.cons.injEq] at h
        exact absurd (h.1 ▸ List.mem_cons_self _ _) hc
    | cons a as' ih =>
      cases cs with
      | nil =>
        simp only [List.cons_append, List.nil_append, List.cons.injEq] at h
        have : '_' ∈ as' ++ '_' :: bs :=
          List.mem_append_right _ (List.mem_cons_self _ _)
        exact absurd (h.2 ▸ this) hy
      | cons c cs' =>
        simp only [List.cons_append, List.cons.injEq] at h
        have hrec := ih (fun hm => hc (List.mem_cons_of_mem _ hm)) h.2
        simp [h.1, hrec.1, hrec.2]
  · rintro ⟨rfl, rfl⟩
    rfl

/-- The composite string key determines its components whenever the
enumerated contract and city contain no underscore (true of the fixed
enumerations of Code.gs:2-8). -/
theorem empKey_inj {s t c y : String} (hc : '_' ∉ c.data) (hy : '_' ∉ y.data) :
    empKey s t = empKey c y ↔ s = c ∧ t = y := by
  constructor
  · intro h
    have hd : s.data ++ '_' :: t.data = c.data ++ '_' :: y.data := by
      have := congrArg String.data h
      simpa [empKey, String.data_append] using this
    obtain ⟨h1, h2⟩ := (underscore_split hc hy).mp hd
    exact ⟨String.ext h1, String.ext h2⟩
  · rintro ⟨rfl, rfl⟩
    rfl

/-- Under an enumerated key, the counted roster entries are exactly those
whose contract and city equal the key's components. -/
theorem countKey_eq_matchCount (masterData : List RosterEntry) (c y : String)
    (hc : '_' ∉ c.data) (hy : '_' ∉ y.data) :
    countKey masterData (empKey c y) = matchCount masterData c y := by
  unfold countKey matchCount
  refine congrArg _ (List.filter_congr fun emp _ => ?_)
  rw [Bool.eq_iff_iff]
  simp only [beq_iff_eq, Bool.and_eq_true, empKeyOf]
  exact empKey_inj hc hy

/-- No enumerated contract or city contains an underscore. -/
theorem pairs_underscore_free :
    ∀ pr ∈ contractCityPairs, '_' ∉ pr.1.data ∧ '_' ∉ pr.2.data := by
  decide

/-- C3: in every emitted master-report row, every date cell satisfies
`assigned + unassigned = total`, with the row's single total (so the total
is the same across all its date cells), and that total is exactly the
number of roster entries whose contract and city match the row's key. -/
theorem masterReport_cell_invariant (dates : List Nat)
    (masterData : List RosterEntry) (rawData : List ShiftRecord)
    (row : ReportRow) (hrow : row ∈ generateMasterReport dates masterData rawData) :
    (∀ cell ∈ row.cells, (cell.assigned : Int) + cell.unassigned = (row.total : Int))
      ∧ row.total = matchCount masterData row.contract row.city := by
  simp only [generateMasterReport, List.mem_filterMap] at hrow
  obtain ⟨p, hp, hf⟩ := hrow
  by_cases hpos : 0 < p.2.total
  swap
  · simp [hpos] at hf
  simp only [hpos, if_pos, Option.some.injEq] at hf
  subst hf
  constructor
  · intro cell hcell
    simp only [mkCells, List.mem_map] at hcell
    obtain ⟨date, -, rfl⟩ := hcell
    simp only
    omega
  · have hview : (p.1, p.2.contract, p.2.city, p.2.total)
        ∈ totalsView (countAssigned (countTotals initContractMap masterData) dates rawData) :=
      List.mem_map.mpr ⟨p, hp, rfl⟩
    rw [totalsView_final] at hview
    obtain ⟨pr, hpr, heq⟩ := List.mem_map.mp hview
    have hcontract : pr.1 = p.2.contract := congrArg (fun q => q.2.1) heq
    have hcity : pr.2 = p.2.city := congrArg (fun q => q.2.2.1) heq
    have htotal : countKey masterData (empKey pr.1 pr.2) = p.2.total :=
      congrArg (fun q => q.2.2.2) heq
    obtain ⟨hufc, hufy⟩ := pairs_underscore_free pr hpr
    simp only
    rw [← htotal, ← hcontract, ← hcity]
    exact countKey_eq_matchCount masterData pr.1 pr.2 hufc hufy

/-- Witness for C3 at a concrete report: the emitted `(MTA, Suez)` row's
total is the number of matching roster entries. -/
theorem masterReport_cell_invariant_witness :
    ((generateMasterReport [10] rosterC [shiftA]).headD emptyRow).total
      = matchCount rosterC
          ((generateMasterReport [10] rosterC [shiftA]).headD emptyRow).contract
          ((generateMasterReport [10] rosterC [shiftA]).headD emptyRow).city :=
  (masterReport_cell_invariant [10] rosterC [shiftA] _ (by decide)).2

/-- C9: the aggregator is a pure function — two runs on identical inputs
(dates being plain values, so equal fresh values are the same input)
produce identical rows — and its row order is exactly the stable order of
the fixed Contract x City enumeration, restricted to the pairs with a
positive roster count. -/
theorem masterReport_deterministic_order (dates : List Nat)
    (masterData : List RosterEntry) (rawData : List ShiftRecord) :
    generateMasterReport dates masterData rawData
        = generateMasterReport dates masterData rawData
      ∧ (generateMasterReport dates masterData rawData).map (fun r => (r.contract, r.city))
        = contractCityPairs.filterMap fun pr =>
            if 0 < matchCount masterData pr.1 pr.2 then some pr else none := by
  refine ⟨rfl, ?_⟩
  simp only [generateMasterReport]
  rw [List.map_filterMap]
  have h1 : (countAssigned (countTotals initContractMap masterData) dates rawData).filterMap
        (fun p => Option.map (fun r : ReportRow => (r.contract, r.city))
          (if 0 < p.2.total then
            some { contract := p.2.contract, city := p.2.city, total := p.2.total,
                   cells := mkCells p.2.total p.2.dates dates }
          else none))
      = (countAssigned (countTotals initContractMap masterData) dates rawData).filterMap
        (fun p => if 0 < p.2.total then some (p.2.contract, p.2.city) else none) :=
    List.filterMap_congr fun p _ => by by_cases h : 0 < p.2.total <;> simp [h]
  rw [h1]
  have h2 : (countAssigned (countTotals initContractMap masterData) dates rawData).filterMap
        (fun p => if 0 < p.2.total then some (p.2.contract, p.2.city) else none)
      = (totalsView (countAssigned (countTotals initContractMap masterData) dates rawData)).filterMap
        (fun q => if 0 < q.2.2.2 then some (q.2.1, q.2.2.1) else none) := by
    rw [totalsView, List.filterMap_map]
    rfl
  rw [h2, totalsView_final, List.filterMap_map]
  refine List.filterMap_congr fun pr hpr => ?_
  obtain ⟨hufc, hufy⟩ := pairs_underscore_free pr hpr
  simp only [Function.comp]
  rw [countKey_eq_matchCount masterData pr.1 pr.2 hufc hufy]

/-! ## Substring search, trimming and upper-casing -/

/-- `isPfx` as an existential. -/
theorem isPfx_iff (n : List Char) :
    ∀ l : List Char, isPfx n l = true ↔ ∃ v, n ++ v = l := by
  induction n with
  | nil =>
    intro l
    simp [isPfx]
  | cons a as ih =>
    intro l
    cases l with
    | nil =>
      simp [isPfx]
    | cons b bs =>
      simp only [isPfx, Bool.and_eq_true, beq_iff_eq, ih bs]
      constructor
      · rintro ⟨rfl, v, rfl⟩
        exact ⟨v, rfl⟩
      · rintro ⟨v, hv⟩
        simp only [List.cons_append, List.cons.injEq] at hv
        exact ⟨hv.1, v, hv.2⟩

/-- `hasSub` as an existential: a contiguous occurrence. -/
theorem hasSub_iff (n : List Char) :
    ∀ l : List Char, hasSub n l = true ↔ ∃ u v, u ++ n ++ v = l := by
  intro l
  induction l with
  | nil =>
    simp only [hasSub, isPfx_iff]
    constructor
    · rintro ⟨v, hv⟩
      exact ⟨[], v, hv⟩
    · rintro ⟨u, v, huv⟩
      obtain ⟨h1, hv⟩ := List.append_eq_nil.mp huv
      obtain ⟨hu, hn2⟩ := List.append_eq_nil.mp h1
      exact ⟨[], by simp [hn2]⟩
  | cons b bs ih =>
    simp only [hasSub, Bool.or_eq_true, isPfx_iff, ih]
    constructor
    · rintro (⟨v, hv⟩ | ⟨u, v, huv⟩)
      · exact ⟨[], v, by simpa using hv⟩
      · exact ⟨b :: u, v, by simp [huv]⟩
    · rintro ⟨u, v, huv⟩
      cases u with
      | nil => exact Or.inl ⟨v, by simpa using huv⟩
      | cons c u' =>
        simp only [List.cons_append, List.cons.injEq] at huv
        exact Or.inr ⟨u', v, huv.2⟩

/-- An occurrence of a needle whose characters all fail `p` survives
`dropWhile p`. -/
theorem hasSub_dropWhile (p : Char → Bool) (n : List Char) (hn : n ≠ [])
    (hall : ∀ c ∈ n, p c = false) :
    ∀ l : List Char, hasSub n l = true → hasSub n (l.dropWhile p) = true := by
  have key : ∀ u v : List Char,
      ∃ u', (u ++ n ++ v).dropWhile p = u' ++ n ++ v := by
    intro u v
    induction u with
    | nil =>
      cases n with
      | nil => exact absurd rfl hn
      | cons n0 n1 =>
        refine ⟨[], ?_⟩
        simp [List.dropWhile_cons, hall n0 (List.mem_cons_self _ _)]
    | cons a u1 ih =>
      by_cases hpa : p a = true
      · obtain ⟨u', hu'⟩ := ih
        exact ⟨u', by simpa [List.dropWhile_cons, hpa] using hu'⟩
      · exact ⟨a :: u1, by simp [List.dropWhile_cons, hpa]⟩
  intro l h
  obtain ⟨u, v, rfl⟩ := (hasSub_iff n l).mp h
  obtain ⟨u', hu'⟩ := key u v
  exact (hasSub_iff n _).mpr ⟨u', v, hu'.symm⟩

/-- Occurrences reverse. -/
theorem hasSub_reverse (n l : List Char) :
    hasSub n.reverse l.reverse = hasSub n l := by
  rw [Bool.eq_iff_iff, hasSub_iff, hasSub_iff]
  constructor
  · rintro ⟨u, v, huv⟩
    refine ⟨v.reverse, u.reverse, ?_⟩
    have := congrArg List.reverse huv
    simpa [List.reverse_append, List.append_assoc] using this
  · rintro ⟨u, v, huv⟩
    refine ⟨v.reverse, u.reverse, ?_⟩
    have := congrArg List.reverse huv
    simpa [List.reverse_append, List.append_assoc] using this

/-- `dropWhile p` strips a leading block: the input is some prefix block
followed by the result. -/
theorem dropWhile_tail (p : Char → Bool) :
    ∀ l : List Char, ∃ w, l = w ++ l.dropWhile p := by
  intro l
  induction l with
  | nil => exact ⟨[], rfl⟩
  | cons a t ih =>
    by_cases hpa : p a = true
    · obtain ⟨w, hw⟩ := ih
      exact ⟨a :: w, by simpa [List.dropWhile_cons, hpa] using hw⟩
    · exact ⟨[], by simp [List.dropWhile_cons, hpa]⟩

/-- Trimming neither creates nor destroys occurrences of a non-empty,
whitespace-free needle. -/
theorem hasSub_trimChars (n : List Char) (hn : n ≠ [])
    (hall : ∀ c ∈ n, isWS c = false) (l : List Char) :
    hasSub n (trimChars l) = hasSub n l := by
  have hnrev : n.reverse ≠ [] := by simpa using hn
  have hallrev : ∀ c ∈ n.reverse, isWS c = false := fun c hc =>
    hall c (List.mem_reverse.mp hc)
  rw [Bool.eq_iff_iff]
  constructor
  · intro h
    obtain ⟨u, v, huv⟩ := (hasSub_iff n _).mp h
    obtain ⟨w1, hw1⟩ := dropWhile_tail isWS l
    obtain ⟨w2, hw2⟩ := dropWhile_tail isWS (l.dropWhile isWS).reverse
    have hM1 : List.dropWhile isWS l = trimChars l ++ w2.reverse := by
      conv_lhs => rw [← List.reverse_reverse (List.dropWhile isWS l), hw2]
      rw [List.reverse_append, trimChars]
    rw [hM1] at hw1
    rw [← huv] at hw1
    exact (hasSub_iff n l).mpr
      ⟨w1 ++ u, v ++ w2.reverse, by rw [hw1]; simp [List.append_assoc]⟩
  · intro h
    have h1 : hasSub n (l.dropWhile isWS) = true := hasSub_dropWhile isWS n hn hall l h
    have h2 : hasSub n.reverse (l.dropWhile isWS).reverse = true := by
      rw [hasSub_reverse]; exact h1
    have h3 : hasSub n.reverse ((l.dropWhile isWS).reverse.dropWhile isWS) = true :=
      hasSub_dropWhile isWS n.reverse hnrev hallrev _ h2
    have h4 := (hasSub_reverse n.reverse ((l.dropWhile isWS).reverse.dropWhile isWS)).symm
    rw [List.reverse_reverse] at h4
    rw [trimChars, ← h4]
    exact h3

/-- ASCII upper-casing never changes whether a character is whitespace. -/
theorem isWS_jsUpperChar (c : Char) : isWS (jsUpperChar c) = isWS c := by
  unfold jsUpperChar
  split <;> rfl

/-- Upper-casing commutes with `dropWhile isWS`. -/
theorem dropWhile_upperChars (l : List Char) :
    (upperChars l).dropWhile isWS = upperChars (l.dropWhile isWS) := by
  induction l with
  | nil => rfl
  | cons a t ih =>
    simp only [upperChars, List.map_cons, List.dropWhile_cons, isWS_jsUpperChar]
    by_cases h : isWS a = true
    · simpa [h, upperChars] using ih
    · simp [h, upperChars]

/-- Upper-casing commutes with trimming. -/
theorem trimChars_upperChars (l : List Char) :
    trimChars (upperChars l) = upperChars (trimChars l) := by
  have hrev : ∀ x : List Char, (upperChars x).reverse = upperChars x.reverse := by
    intro x
    simp [upperChars, List.map_reverse]
  simp only [trimChars]
  rw [dropWhile_upperChars, hrev, dropWhile_upperChars, hrev]

/-- The code's status test in claim terms: `isValidShift` accepts exactly
the non-empty statuses that do not case-insensitively contain `NO_SHOW`
or `EXCUSED` (trimming before the regex test is irrelevant because both
needles are whitespace-free). -/
theorem isValidShift_eq (s : String) :
    isValidShift s = ((s != "") && !excludedStatusSpec s) := by
  by_cases h : s = ""
  · simp [isValidShift, h]
  · have hne : (s != "") = true := by simpa using h
    rw [isValidShift, if_neg h, hne, Bool.true_and, excludedStatusSpec]
    rw [← trimChars_upperChars]
    rw [hasSub_trimChars NOSHOW (by decide) (by decide),
        hasSub_trimChars EXCUSED (by decide) (by decide)]

/-- A guarded `filterMap` is a `filter` followed by a `map`. -/
theorem filterMap_guard {α β : Type} (p : α → Bool) (g : α → β) :
    ∀ l : List α,
      l.filterMap (fun a => if p a then some (g a) else none)
        = (l.filter p).map g := by
  intro l
  induction l with
  | nil => rfl
  | cons a t ih =>
    by_cases h : p a = true <;>
      simp [List.filterMap_cons, List.filter_cons, h, ih]

/-- Each formatted time is the sentinel or a zero-padded `HH:mm` value. -/
theorem formatTime_shape (o : Option Nat) :
    formatTime o = "Invalid Time"
      ∨ ∃ hh mm, hh < 24 ∧ mm < 60 ∧ formatTime o = twoDigit hh ++ ":" ++ twoDigit mm := by
  cases o with
  | none => exact Or.inl rfl
  | some t =>
    refine Or.inr ⟨t % 1440 / 60, t % 1440 % 60, by omega, by omega, rfl⟩

/-- Counterexample to C7 as stated: both rows satisfy the claim's
retention condition (non-empty id cell, no excluded status), yet the
whitespace-id row is kept with an *empty* trimmed employeeId and the
empty-status row is dropped entirely. -/
theorem ingest_claim_counterexample :
    keptClaim rawRowWS = true
      ∧ keptClaim rawRowEmptyStatus = true
      ∧ prepareCityData "Assiut" [rawRowWS, rawRowEmptyStatus]
        = [{ employeeId := "", shiftStatus := "Completed", plannedStartDate := 0,
             plannedStartTime := "Invalid Time", plannedEndTime := "Invalid Time",
             city := "Assiut" }] := by
  exact ⟨by decide, by decide, by decide⟩

/-- C7 (amended): `ingestRawRecords` retains exactly the rows whose
employee-id cell is non-empty *and whose status cell is non-empty* and
does not case-insensitively contain `NO_SHOW`/`EXCUSED`; each retained
record carries the trimmed employeeId and status (the trimmed id may be
empty when the cell was whitespace-only), and each time field is a
zero-padded `HH:mm` rendering or the sentinel; no input row aborts the
batch (ingestion is total and row-local). -/
theorem ingest_retention_spec (city : String) (rows : List RawRow) :
    prepareCityData city rows = (rows.filter keptAmended).map (mkShiftRecord city)
      ∧ ∀ rec ∈ prepareCityData city rows,
          (rec.plannedStartTime = "Invalid Time"
            ∨ ∃ hh mm, hh < 24 ∧ mm < 60
                ∧ rec.plannedStartTime = twoDigit hh ++ ":" ++ twoDigit mm)
          ∧ (rec.plannedEndTime = "Invalid Time"
            ∨ ∃ hh mm, hh < 24 ∧ mm < 60
                ∧ rec.plannedEndTime = twoDigit hh ++ ":" ++ twoDigit mm) := by
  have hpred : ∀ row : RawRow,
      ((row.employeeIdCell != "") && isValidShift row.statusCell) = keptAmended row := by
    intro row
    rw [isValidShift_eq, keptAmended, Bool.and_assoc]
  have hform : prepareCityData city rows
      = rows.filterMap fun row =>
          if (row.employeeIdCell != "") && isValidShift row.statusCell then
            some (mkShiftRecord city row)
          else none := rfl
  constructor
  · rw [hform]
    have : (fun row : RawRow =>
        if (row.employeeIdCell != "") && isValidShift row.statusCell then
          some (mkShiftRecord city row)
        else none)
      = fun row =>
          if keptAmended row then some (mkShiftRecord city row) else none := by
      funext row
      rw [hpred]
    rw [this]
    exact filterMap_guard keptAmended (mkShiftRecord city) rows
  · intro rec hrec
    rw [hform] at hrec
    simp only [List.mem_filterMap] at hrec
    obtain ⟨row, -, hrow⟩ := hrec
    by_cases h : ((row.employeeIdCell != "") && isValidShift row.statusCell) = true
    swap
    · simp [h] at hrow
    simp only [h, if_pos, Option.some.injEq] at hrow
    subst hrow
    exact ⟨formatTime_shape row.startTimeCell, formatTime_shape row.endTimeCell⟩

/-- Witness for the amended C7 at a concrete retained row: its formatted
start time is the `HH:mm` value `02:05`. -/
theorem ingest_retention_spec_witness :
    ((mkShiftRecord "Suez" rawRowGood).plannedStartTime = "Invalid Time"
        ∨ ∃ hh mm, hh < 24 ∧ mm < 60
            ∧ (mkShiftRecord "Suez" rawRowGood).plannedStartTime
              = twoDigit hh ++ ":" ++ twoDigit mm)
      ∧ ((mkShiftRecord "Suez" rawRowGood).plannedEndTime = "Invalid Time"
        ∨ ∃ hh mm, hh < 24 ∧ mm < 60
            ∧ (mkShiftRecord "Suez" rawRowGood).plannedEndTime
              = twoDigit hh ++ ":" ++ twoDigit mm) :=
  (ingest_retention_spec "Suez" [rawRowGood]).2
    (mkShiftRecord "Suez" rawRowGood) (by decide)

end ShiftAutomation
